import Mathlib

/-!
Verification of the APNG-Builder container assembly engine (src/apng.js).

The JavaScript source is shallowly embedded: byte buffers become `List Nat`
(every entry a byte value), `DataView.setUint32`/`setUint16` writes become
explicit big-endian byte lists, JavaScript runtime failures (thrown strings,
`RangeError` on out-of-range typed-array views, `TypeError` on property
access of `undefined`) become an explicit error type, and the
construct-then-await orchestration of `APNGmaker` becomes a function into
`Except`.
-/

set_option maxHeartbeats 1600000
set_option maxRecDepth 16000

deriving instance DecidableEq for Except

namespace APNG

/-- One step of the reflected CRC-32 polynomial division, exactly the body
of the table-generation loop in src/apng.js:
`tmp = tmp & 1 ? 3988292384 ^ tmp >>> 1 : tmp >>> 1`. -/
def crcStep (tmp : Nat) : Nat :=
  if tmp &&& 1 = 1 then 3988292384 ^^^ (tmp >>> 1) else tmp >>> 1

/-- Entry `i` of the 256-entry lookup table of src/apng.js: eight
iterations of `crcStep` starting from the index. -/
def crcTableEntry (i : Nat) : Nat := crcStep^[8] i

/-- crc32 of a byte list, as the table-driven loop in src/apng.js:
register starts at all-ones (`crc = -1`, read unsigned), each byte does
`crc = crc >>> 8 ^ table[crc & 255 ^ data[i]]`, and the result is the
final bit-inversion `(crc ^ -1) >>> 0`. -/
def crc32 (data : List Nat) : Nat :=
  (data.foldl (fun crc b => (crc >>> 8) ^^^ crcTableEntry ((crc &&& 255) ^^^ b))
    4294967295) ^^^ 4294967295

/-- Modelled from the spec: one bit-at-a-time step of CRC-32/ISO-HDLC with
the reflected polynomial 0xEDB88320. -/
def isoStep (c : Nat) : Nat :=
  if c &&& 1 = 1 then 0xEDB88320 ^^^ (c >>> 1) else c >>> 1

/-- Modelled from the spec: the bit-at-a-time CRC-32/ISO-HDLC reference
(initial register all-ones, xor each byte into the low bits, eight
polynomial-division steps per byte, final bit-inversion), used to check
that the table-driven `crc32` implements this algorithm. -/
def crc32IsoHdlc (data : List Nat) : Nat :=
  (data.foldl (fun crc b => isoStep^[8] (crc ^^^ b)) 0xFFFFFFFF) ^^^ 0xFFFFFFFF

/-- Big-endian 4-byte encoding, as `DataView.setUint32` writes it
(the stored value is the argument reduced modulo 2^32). -/
def be32 (n : Nat) : List Nat :=
  [(n >>> 24) &&& 255, (n >>> 16) &&& 255, (n >>> 8) &&& 255, n &&& 255]

/-- Big-endian 2-byte encoding, as `DataView.setUint16` writes it. -/
def be16 (n : Nat) : List Nat := [(n >>> 8) &&& 255, n &&& 255]

/-- Big-endian decoding of a 4-byte list, as `DataView.getUint32` reads it. -/
def be32dec (bs : List Nat) : Nat :=
  match bs with
  | [a, b, c, d] => ((a * 256 + b) * 256 + c) * 256 + d
  | _ => 0

/-- Big-endian decoding of a 2-byte list, as `DataView.getUint16` reads it. -/
def be16dec (bs : List Nat) : Nat :=
  match bs with
  | [a, b] => a * 256 + b
  | _ => 0

/-- A byte list: every entry is below 256.  ArrayBuffer contents in the
source are always of this shape. -/
def IsBytes (l : List Nat) : Prop := ∀ b ∈ l, b < 256

instance (l : List Nat) : Decidable (IsBytes l) :=
  inferInstanceAs (Decidable (∀ b ∈ l, b < 256))

/-- Serialized chunk as `buildChunk` of src/apng.js builds it:
4-byte big-endian length, the 4 tag bytes, the payload, then the 4-byte
big-endian CRC-32 of tag followed by payload. -/
def buildChunk (type data : List Nat) : List Nat :=
  be32 data.length ++ type ++ data ++ be32 (crc32 (type ++ data))

/-- The 8-byte PNG signature set in the APNGmaker constructor. -/
def pngSignature : List Nat := [0x89, 0x50, 0x4e, 0x47, 0x0d, 0x0a, 0x1a, 0x0a]

/-- ASCII bytes of the tag "IHDR". -/
def ihdrTag : List Nat := [73, 72, 68, 82]

/-- ASCII bytes of the tag "IDAT". -/
def idatTag : List Nat := [73, 68, 65, 84]

/-- ASCII bytes of the tag "IEND". -/
def iendTag : List Nat := [73, 69, 78, 68]

/-- ASCII bytes of the tag "fcTL". -/
def fctlTag : List Nat := [102, 99, 84, 76]

/-- ASCII bytes of the tag "fdAT". -/
def fdatTag : List Nat := [102, 100, 65, 84]

/-- ASCII bytes of the tag "acTL". -/
def actlTag : List Nat := [97, 99, 84, 76]

/-- The hardcoded 12-byte IEND chunk set in the constructor:
zero length, tag "IEND", CRC bytes AE 42 60 82. -/
def iEND : List Nat := [0, 0, 0, 0, 73, 69, 78, 68, 0xAE, 0x42, 0x60, 0x82]

/-- The 13-byte IHDR payload the constructor fills: width and height
big-endian, then bit depth 8, color type 6, compression 0, filter 0,
interlace 0. -/
def ihdrPayload (w h : Nat) : List Nat := be32 w ++ be32 h ++ [8, 6, 0, 0, 0]

/-- The 8-byte acTL payload of `build`: number of frames then numplays. -/
def actlPayload (numFrames numplays : Nat) : List Nat :=
  be32 numFrames ++ be32 numplays

/-- The 26-byte fcTL payload of `build`: the `DataView` writes fill
offsets 0 (sequence number), 4 (width), 8 (height), 20 (delay numerator 1)
and 22 (delay denominator FPS); offsets 12-19 (x and y offset) and 24-25
(dispose and blend op) stay at the zero-initialized buffer contents. -/
def fctlPayload (seq w h fps : Nat) : List Nat :=
  be32 seq ++ be32 w ++ be32 h ++ [0, 0, 0, 0] ++ [0, 0, 0, 0]
    ++ be16 1 ++ be16 fps ++ [0, 0]

/-- JavaScript runtime failures of src/apng.js: the thrown string of
`lookForIDAT` on an unexpected chunk tag, `RangeError` from an
out-of-bounds typed-array view, `TypeError` from property access on
`undefined`, and an unreachable fuel marker for the loop embedding. -/
inductive JsError where
  | malformed (tag : List Nat)
  | rangeError
  | typeError
  | fuelOut
deriving DecidableEq

/-- Reading `n` bytes at `off`, as a `Uint8Array`/`DataView` view of an
ArrayBuffer: out-of-bounds views throw `RangeError`, modelled as `none`. -/
def readBytes (ab : List Nat) (off n : Nat) : Option (List Nat) :=
  if off + n ≤ ab.length then some ((ab.drop off).take n) else none

/-- The scan loop of `lookForIDAT` in src/apng.js, with an explicit fuel
argument for the `while(!end)` loop (the fuel passed by `lookForIDAT` is
never exhausted, since every iteration either stops or needs at least 12
further bytes).  At `offset` it reads a 4-byte tag; on "IDAT" it reads the
big-endian length at `offset-4`, copies that many payload bytes from
`offset+4`, appends them, and advances by `length+12`; on "IEND" it
returns the accumulated list; any other tag is thrown. -/
def lookGo (ab : List Nat) : Nat → Nat → List (List Nat) →
    Except JsError (List (List Nat))
  | 0, _, _ => .error .fuelOut
  | fuel + 1, offset, acc =>
    match readBytes ab offset 4 with
    | none => .error .rangeError
    | some chunktype =>
      if chunktype = idatTag then
        match readBytes ab (offset - 4) 4 with
        | none => .error .rangeError
        | some lenBytes =>
          match readBytes ab (offset + 4) (be32dec lenBytes) with
          | none => .error .rangeError
          | some idat => lookGo ab fuel (offset + be32dec lenBytes + 12) (acc ++ [idat])
      else if chunktype = iendTag then .ok acc
      else .error (.malformed chunktype)

/-- `lookForIDAT` of src/apng.js: skip the 8-byte signature, the 25-byte
IHDR chunk and the 4-byte length field of the first chunk (37 bytes), then
scan chunks. -/
def lookForIDAT (ab : List Nat) : Except JsError (List (List Nat)) :=
  lookGo ab (ab.length + 1) 37 []

/-- The fdAT chunks of one non-first frame in `build`: each data block is
prefixed with the 4-byte big-endian running sequence number (`seq++` per
block) and tagged "fdAT".  Returns the chunks and the counter value after
the frame. -/
def fdChunks : Nat → List (List Nat) → List (List Nat × List Nat) × Nat
  | s, [] => ([], s)
  | s, d :: ds =>
    let rest := fdChunks (s + 1) ds
    ((fdatTag, be32 s ++ d) :: rest.1, rest.2)

/-- The chunks of one frame in `build`: the fcTL chunk takes the current
sequence number (`seq++` before the branch); the first frame then emits
its data blocks as plain IDAT chunks, later frames emit fdAT chunks via
`fdChunks`. -/
def frameChunks (w h fps seq : Nat) (isFirst : Bool) (data : List (List Nat)) :
    List (List Nat × List Nat) × Nat :=
  if isFirst then
    ((fctlTag, fctlPayload seq w h fps) :: data.map (fun d => (idatTag, d)), seq + 1)
  else
    let rest := fdChunks (seq + 1) data
    ((fctlTag, fctlPayload seq w h fps) :: rest.1, rest.2)

/-- All frame chunks of `build`, over the `forEach` loop: the counter
starts at the given value and the first iteration is the `i == 0` case. -/
def allFrameChunks (w h fps : Nat) : Nat → Bool → List (List (List Nat)) →
    List (List Nat × List Nat) × Nat
  | seq, _, [] => ([], seq)
  | seq, isFirst, d :: ds =>
    let fc := frameChunks w h fps seq isFirst d
    let rest := allFrameChunks w h fps fc.2 false ds
    (fc.1 ++ rest.1, rest.2)

/-- Concatenated serialization of a chunk list. -/
def serializeChunks (cs : List (List Nat × List Nat)) : List Nat :=
  cs.foldr (fun c r => buildChunk c.1 c.2 ++ r) []

/-- The per-frame byte segments pushed onto `this.frames` in `build`: one
entry per frame, each the concatenation of that frame's chunks. -/
def frameSegs (w h fps : Nat) : Nat → Bool → List (List (List Nat)) →
    List (List Nat) × Nat
  | seq, _, [] => ([], seq)
  | seq, isFirst, d :: ds =>
    let fc := frameChunks w h fps seq isFirst d
    let rest := frameSegs w h fps fc.2 false ds
    (serializeChunks fc.1 :: rest.1, rest.2)

/-- The byte stream of the Blob assembled by `build` in src/apng.js:
signature, IHDR chunk, acTL chunk (frame count and numplays), the frame
segments in order, then the hardcoded IEND bytes. -/
def build (images : List (List (List Nat))) (w h fps numplays : Nat) : List Nat :=
  pngSignature ++ buildChunk ihdrTag (ihdrPayload w h)
    ++ buildChunk actlTag (actlPayload images.length numplays)
    ++ (frameSegs w h fps 0 true images).1.foldr (· ++ ·) []
    ++ iEND

/-- A source canvas as the constructor sees it: its dimensions, and the
single-still-image PNG byte buffer the platform encoder produces for it
(the `can.toBlob` result that `add` feeds to `lookForIDAT`). -/
structure Canvas where
  width : Nat
  height : Nat
  png : List Nat
deriving DecidableEq

/-- The result Blob: its byte contents and the type option it was
constructed with. -/
structure Blob where
  bytes : List Nat
  mimeType : String
deriving DecidableEq

/-- The constructor default `FPS || 30`: an omitted or zero (falsy)
argument becomes 30. -/
def fpsVal (fps : Option Nat) : Nat :=
  match fps with
  | none => 30
  | some 0 => 30
  | some n => n

/-- The constructor default `numplays || 0`: an omitted (or zero)
argument becomes 0. -/
def npVal (numplays : Option Nat) : Nat :=
  match numplays with
  | none => 0
  | some n => n

/-- The APNGmaker constructor of src/apng.js: on an empty image array the
very first statement `this.width = images[0].width` throws a `TypeError`
(property access on `undefined`); otherwise every canvas buffer goes
through `lookForIDAT` (the `add` loop joined by `Promise.all`, which
rejects with the first extraction failure), and `build` assembles the
Blob, constructed with type "image/apng". -/
def APNGmaker (images : List Canvas) (fps numplays : Option Nat) :
    Except JsError Blob :=
  match images with
  | [] => .error .typeError
  | img :: rest =>
    match (img :: rest).mapM (fun c => lookForIDAT c.png) with
    | .error e => .error e
    | .ok payloads =>
      .ok ⟨build payloads img.width img.height (fpsVal fps) (npVal numplays),
        "image/apng"⟩

/-- The sequence numbers carried by fcTL and fdAT chunks, in emission
order: the big-endian number in the first 4 payload bytes. -/
def seqNums (cs : List (List Nat × List Nat)) : List Nat :=
  cs.filterMap (fun c =>
    if c.1 = fctlTag ∨ c.1 = fdatTag then some (be32dec (c.2.take 4)) else none)

/-- Number of chunks with the given tag. -/
def countTag (cs : List (List Nat × List Nat)) (tag : List Nat) : Nat :=
  (cs.filter (fun c => c.1 == tag)).length

/-- Number of sequence values a build consumes: one per frame's fcTL and
one per data block of every non-first frame. -/
def seqCount : Bool → List (List (List Nat)) → Nat
  | _, [] => 0
  | isFirst, d :: ds => 1 + (if isFirst then 0 else d.length) + seqCount false ds

/-- The delay numerator field of a 26-byte fcTL payload (offsets 20-21). -/
def delayNumOf (p : List Nat) : Nat := be16dec ((p.drop 20).take 2)

/-- The delay denominator field of a 26-byte fcTL payload (offsets 22-23). -/
def delayDenOf (p : List Nat) : Nat := be16dec ((p.drop 22).take 2)

/-- A concrete single-still-image buffer: 33 skipped header bytes, one
IDAT chunk with the single payload byte 7, then the end marker. -/
def pngOneIdat : List Nat :=
  List.replicate 33 0 ++ [0, 0, 0, 1] ++ idatTag ++ [7] ++ [0, 0, 0, 0]
    ++ [0, 0, 0, 0] ++ iendTag

/-- A serialized stream of IDAT chunks, one per extracted data block, as
the platform encoder lays them out in a well-formed still image. -/
def idatStream (blocks : List (List Nat)) : List Nat :=
  blocks.foldr (fun d r => buildChunk idatTag d ++ r) []

theorem isoStep_eq_crcStep : isoStep = crcStep := rfl

theorem crcStep_eq (c : Nat) :
    crcStep c = (c >>> 1) ^^^ (c &&& 1) * 3988292384 := by
  unfold crcStep
  rcases Nat.mod_two_eq_zero_or_one c with h | h
  · rw [Nat.and_one_is_mod, h]
    simp [Nat.and_one_is_mod, h]
  · rw [Nat.and_one_is_mod] at *
    simp [h, Nat.xor_comm]

theorem shiftRight_one_xor (a b : Nat) : (a ^^^ b) >>> 1 = a >>> 1 ^^^ b >>> 1 := by
  apply Nat.eq_of_testBit_eq
  intro i
  simp [Nat.testBit_shiftRight, Nat.testBit_xor]

theorem and_one_xor (a b : Nat) : (a ^^^ b) &&& 1 = (a &&& 1) ^^^ (b &&& 1) :=
  Nat.and_xor_distrib_right

theorem crcStep_xor (a b : Nat) : crcStep (a ^^^ b) = crcStep a ^^^ crcStep b := by
  rw [crcStep_eq, crcStep_eq, crcStep_eq, shiftRight_one_xor, and_one_xor]
  have ha : a &&& 1 = a % 2 := Nat.and_one_is_mod a
  have hb : b &&& 1 = b % 2 := Nat.and_one_is_mod b
  have hmul : ((a &&& 1) ^^^ (b &&& 1)) * 3988292384
      = (a &&& 1) * 3988292384 ^^^ (b &&& 1) * 3988292384 := by
    rcases Nat.mod_two_eq_zero_or_one a with h1 | h1 <;>
      rcases Nat.mod_two_eq_zero_or_one b with h2 | h2 <;>
      rw [ha, hb, h1, h2] <;> decide
  rw [hmul]
  rw [Nat.xor_assoc, Nat.xor_assoc]
  congr 1
  rw [← Nat.xor_assoc, ← Nat.xor_assoc]
  rw [Nat.xor_comm ((a &&& 1) * 3988292384) (b >>> 1)]

theorem crcStep_iterate_xor (n a b : Nat) :
    crcStep^[n] (a ^^^ b) = crcStep^[n] a ^^^ crcStep^[n] b := by
  induction n generalizing a b with
  | zero => simp
  | succ k ih =>
    rw [Function.iterate_succ_apply, Function.iterate_succ_apply,
      Function.iterate_succ_apply, crcStep_xor, ih]

theorem crcStep_shiftLeft (x k : Nat) : crcStep (x <<< (k + 1)) = x <<< k := by
  rw [crcStep_eq]
  have h2 : x <<< (k + 1) = 2 * (x <<< k) := by
    rw [Nat.shiftLeft_eq, Nat.shiftLeft_eq, Nat.pow_succ]
    ring
  have hand : x <<< (k + 1) &&& 1 = 0 := by
    rw [Nat.and_one_is_mod, h2, Nat.mul_mod_right]
  have hshift : x <<< (k + 1) >>> 1 = x <<< k := by
    rw [h2, Nat.shiftRight_one, Nat.mul_div_cancel_left _ (by norm_num)]
  rw [hand, hshift, Nat.zero_mul, Nat.xor_zero]

theorem crcStep_iterate_shiftLeft (k x : Nat) : crcStep^[k] (x <<< k) = x := by
  induction k generalizing x with
  | zero => simp [Nat.shiftLeft_zero]
  | succ n ih =>
    rw [Function.iterate_succ_apply, crcStep_shiftLeft, ih]

theorem shiftRight_shiftLeft_xor_and (x : Nat) :
    x = (x >>> 8) <<< 8 ^^^ (x &&& 255) := by
  have h255 : (255 : Nat) = 2 ^ 8 - 1 := by norm_num
  apply Nat.eq_of_testBit_eq
  intro i
  rw [h255]
  simp only [Nat.testBit_xor, Nat.testBit_shiftLeft, Nat.testBit_shiftRight,
    Nat.testBit_and, Nat.testBit_two_pow_sub_one]
  by_cases h : 8 ≤ i
  · have hi : 8 + (i - 8) = i := by omega
    simp [h, hi, Nat.not_lt.mpr h]
  · simp [h, Nat.lt_of_not_le h]

theorem crc_update_eq (crc b : Nat) :
    (crc >>> 8) ^^^ crcTableEntry ((crc &&& 255) ^^^ b)
      = crcStep^[8] (crc ^^^ b) := by
  have h1 : crc ^^^ b = (crc >>> 8) <<< 8 ^^^ ((crc &&& 255) ^^^ b) := by
    conv_lhs => rw [shiftRight_shiftLeft_xor_and crc]
    rw [Nat.xor_assoc]
  conv_rhs =>
    rw [h1, crcStep_iterate_xor 8 ((crc >>> 8) <<< 8) ((crc &&& 255) ^^^ b),
      crcStep_iterate_shiftLeft]
  rfl

theorem crc32_eq_iso (data : List Nat) : crc32 data = crc32IsoHdlc data := by
  unfold crc32 crc32IsoHdlc
  rw [isoStep_eq_crcStep]
  congr 1
  generalize (4294967295 : Nat) = c
  induction data generalizing c with
  | nil => rfl
  | cons d ds ih =>
    simp only [List.foldl_cons]
    rw [crc_update_eq, ih]

theorem be32_length (n : Nat) : (be32 n).length = 4 := rfl

theorem be16_length (n : Nat) : (be16 n).length = 2 := rfl

theorem and_255_eq_mod (n : Nat) : n &&& 255 = n % 256 := by
  have h : n &&& 2 ^ 8 - 1 = n % 2 ^ 8 := Nat.and_pow_two_sub_one_eq_mod n 8
  norm_num at h
  exact h

theorem shiftRight_le_self (x n : Nat) : x >>> n ≤ x := by
  rw [Nat.shiftRight_eq_div_pow]
  exact Nat.div_le_self x (2 ^ n)

theorem be32dec_be32 (n : Nat) : be32dec (be32 n) = n % 4294967296 := by
  unfold be32 be32dec
  simp only [Nat.shiftRight_eq_div_pow, and_255_eq_mod]
  norm_num
  omega

theorem be16dec_be16 (n : Nat) : be16dec (be16 n) = n % 65536 := by
  unfold be16 be16dec
  simp only [Nat.shiftRight_eq_div_pow, and_255_eq_mod]
  norm_num
  omega

theorem be32_eq_of_lt {n : Nat} (h : n < 4294967296) : be32dec (be32 n) = n := by
  rw [be32dec_be32, Nat.mod_eq_of_lt h]

theorem crcStep_lt {x : Nat} (h : x < 4294967296) : crcStep x < 4294967296 := by
  unfold crcStep
  split
  · exact Nat.xor_lt_two_pow (n := 32) (by norm_num)
      (lt_of_le_of_lt (shiftRight_le_self x 1) h)
  · exact lt_of_le_of_lt (shiftRight_le_self x 1) h

theorem crcStep_iterate_lt {x : Nat} (h : x < 4294967296) (n : Nat) :
    crcStep^[n] x < 4294967296 := by
  induction n generalizing x with
  | zero => simpa using h
  | succ k ih =>
    rw [Function.iterate_succ_apply]
    exact ih (crcStep_lt h)

theorem crc32_foldl_lt : ∀ (data : List Nat) (c : Nat), c < 4294967296 → IsBytes data →
    data.foldl (fun crc b => (crc >>> 8) ^^^ crcTableEntry ((crc &&& 255) ^^^ b))
      c < 4294967296 := by
  intro data
  induction data with
  | nil => intro c hc _; simpa using hc
  | cons d ds ih =>
    intro c hc hbs
    simp only [List.foldl_cons]
    apply ih _ _ (fun b hbmem => hbs b (List.mem_cons_of_mem d hbmem))
    apply Nat.xor_lt_two_pow (n := 32)
      (lt_of_le_of_lt (shiftRight_le_self c 8) hc)
    apply crcStep_iterate_lt _ 8
    have hlt : (c &&& 255) ^^^ d < 256 := by
      apply Nat.xor_lt_two_pow (n := 8)
      · rw [and_255_eq_mod]
        exact Nat.mod_lt _ (by norm_num)
      · exact hbs d (List.mem_cons_self d ds)
    exact lt_trans hlt (by norm_num)

theorem crc32_lt (data : List Nat) (hb : IsBytes data) : crc32 data < 4294967296 := by
  unfold crc32
  apply Nat.xor_lt_two_pow (n := 32) _ (by norm_num)
  exact crc32_foldl_lt data 4294967295 (by norm_num) hb

theorem APNGmaker_cons (img : Canvas) (rest : List Canvas) (fps np : Option Nat) :
    APNGmaker (img :: rest) fps np
      = match (img :: rest).mapM (fun c => lookForIDAT c.png) with
        | .error e => .error e
        | .ok payloads =>
          .ok ⟨build payloads img.width img.height (fpsVal fps) (npVal np),
            "image/apng"⟩ := rfl

theorem buildChunk_length (type data : List Nat) :
    (buildChunk type data).length = 4 + type.length + data.length + 4 := by
  unfold buildChunk
  simp [be32_length, List.length_append]
  omega

theorem readBytes_append (a b c : List Nat) :
    readBytes (a ++ b ++ c) a.length b.length = some b := by
  unfold readBytes
  rw [if_pos]
  · rw [List.append_assoc, List.drop_left, List.take_left]
  · rw [List.length_append, List.length_append]
    omega

theorem readBytes_of_eq {ab a b c : List Nat} {off n : Nat}
    (hab : ab = a ++ b ++ c) (hoff : off = a.length) (hn : n = b.length) :
    readBytes ab off n = some b := by
  rw [hab, hoff, hn]
  exact readBytes_append a b c

theorem idatStream_length_ge (blocks : List (List Nat)) :
    blocks.length ≤ (idatStream blocks).length := by
  induction blocks with
  | nil => simp [idatStream]
  | cons d ds ih =>
    simp only [idatStream, List.foldr_cons, List.length_append, List.length_cons]
    have h := buildChunk_length idatTag d
    simp only [idatStream] at ih
    omega

/-- Scanning through a well-formed run of IDAT chunks: the loop collects
the data blocks in stream order and continues after the run with the
counter advanced by one per chunk. -/
theorem lookGo_through (blocks : List (List Nat)) :
    ∀ (pre rest : List Nat) (acc : List (List Nat)) (fuel : Nat),
    (∀ d ∈ blocks, d.length < 4294967296) →
    blocks.length < fuel →
    lookGo (pre ++ (idatStream blocks ++ rest)) fuel (pre.length + 4) acc
      = lookGo (pre ++ (idatStream blocks ++ rest)) (fuel - blocks.length)
          (pre.length + (idatStream blocks).length + 4) (acc ++ blocks) := by
  induction blocks with
  | nil =>
    intro pre rest acc fuel _ _
    simp [idatStream]
  | cons d ds ih =>
    intro pre rest acc fuel hb hfuel
    obtain ⟨k, rfl⟩ : ∃ k, fuel = k + 1 := ⟨fuel - 1, by omega⟩
    have hstream : idatStream (d :: ds) = buildChunk idatTag d ++ idatStream ds := by
      simp [idatStream]
    have hchunk : buildChunk idatTag d
        = be32 d.length ++ (idatTag ++ (d ++ be32 (crc32 (idatTag ++ d)))) := by
      simp [buildChunk, List.append_assoc]
    have hread1 : readBytes (pre ++ (idatStream (d :: ds) ++ rest))
        (pre.length + 4) 4 = some idatTag := by
      apply readBytes_of_eq (a := pre ++ be32 d.length) (b := idatTag)
        (c := d ++ be32 (crc32 (idatTag ++ d)) ++ (idatStream ds ++ rest))
      · rw [hstream, hchunk]; simp [List.append_assoc]
      · simp [be32_length]
      · rfl
    have hread2 : readBytes (pre ++ (idatStream (d :: ds) ++ rest))
        (pre.length + 4 - 4) 4 = some (be32 d.length) := by
      apply readBytes_of_eq (a := pre) (b := be32 d.length)
        (c := idatTag ++ (d ++ be32 (crc32 (idatTag ++ d))) ++ (idatStream ds ++ rest))
      · rw [hstream, hchunk]; simp [List.append_assoc]
      · omega
      · simp [be32_length]
    have hread3 : readBytes (pre ++ (idatStream (d :: ds) ++ rest))
        (pre.length + 4 + 4) (be32dec (be32 d.length)) = some d := by
      apply readBytes_of_eq (a := pre ++ be32 d.length ++ idatTag) (b := d)
        (c := be32 (crc32 (idatTag ++ d)) ++ (idatStream ds ++ rest))
      · rw [hstream, hchunk]; simp [List.append_assoc]
      · simp [be32_length, List.length_append, idatTag]
      · rw [be32_eq_of_lt (hb d (List.mem_cons_self d ds))]
    have hrw : pre ++ (idatStream (d :: ds) ++ rest)
        = (pre ++ buildChunk idatTag d) ++ (idatStream ds ++ rest) := by
      rw [hstream]; simp [List.append_assoc]
    have hconc := ih (pre ++ buildChunk idatTag d) rest (acc ++ [d]) k
      (fun x hx => hb x (List.mem_cons_of_mem d hx)) (by simp at hfuel ⊢; omega)
    rw [← hrw] at hconc
    have hoff1 : (pre ++ buildChunk idatTag d).length + 4
        = pre.length + 4 + d.length + 12 := by
      simp [List.length_append, buildChunk_length, idatTag]
      omega
    have hfuel_eq : k + 1 - (d :: ds).length = k - ds.length := by
      simp only [List.length_cons]
      omega
    have hoff2 : (pre ++ buildChunk idatTag d).length + (idatStream ds).length + 4
        = pre.length + (idatStream (d :: ds)).length + 4 := by
      rw [hstream]
      simp [List.length_append, buildChunk_length, idatTag]
      omega
    have hacc : (acc ++ [d]) ++ ds = acc ++ (d :: ds) := by simp
    rw [hoff1, hoff2, hacc] at hconc
    rw [hfuel_eq, lookGo]
    simp only [hread1]
    rw [if_pos trivial]
    simp only [hread2, hread3]
    rw [be32_eq_of_lt (hb d (List.mem_cons_self d ds))]
    exact hconc

/-- If the byte at the scan position after a well-formed IDAT run is the
end marker, the loop returns exactly the blocks of the run, in order. -/
theorem lookGo_ok (blocks : List (List Nat)) (pre f4 post : List Nat)
    (acc : List (List Nat)) (fuel : Nat)
    (hb : ∀ d ∈ blocks, d.length < 4294967296)
    (hf : f4.length = 4)
    (hfuel : blocks.length + 1 < fuel) :
    lookGo (pre ++ (idatStream blocks ++ (f4 ++ (iendTag ++ post)))) fuel
      (pre.length + 4) acc = .ok (acc ++ blocks) := by
  rw [lookGo_through blocks pre (f4 ++ (iendTag ++ post)) acc fuel hb (by omega)]
  obtain ⟨k, hk⟩ : ∃ k, fuel - blocks.length = k + 1 := ⟨fuel - blocks.length - 1, by omega⟩
  rw [hk, lookGo]
  have hread : readBytes (pre ++ (idatStream blocks ++ (f4 ++ (iendTag ++ post))))
      (pre.length + (idatStream blocks).length + 4) 4 = some iendTag := by
    apply readBytes_of_eq (a := pre ++ idatStream blocks ++ f4) (b := iendTag)
      (c := post)
    · simp [List.append_assoc]
    · simp [List.length_append]; omega
    · rfl
  simp only [hread]
  simp [iendTag, idatTag]

/-- If the tag at the scan position after a well-formed IDAT run is
neither "IDAT" nor "IEND", the loop throws it. -/
theorem lookGo_bad (blocks : List (List Nat)) (pre f4 bad post : List Nat)
    (acc : List (List Nat)) (fuel : Nat)
    (hb : ∀ d ∈ blocks, d.length < 4294967296)
    (hf : f4.length = 4) (hbad4 : bad.length = 4)
    (hbad1 : bad ≠ idatTag) (hbad2 : bad ≠ iendTag)
    (hfuel : blocks.length + 1 < fuel) :
    lookGo (pre ++ (idatStream blocks ++ (f4 ++ (bad ++ post)))) fuel
      (pre.length + 4) acc = .error (.malformed bad) := by
  rw [lookGo_through blocks pre (f4 ++ (bad ++ post)) acc fuel hb (by omega)]
  obtain ⟨k, hk⟩ : ∃ k, fuel - blocks.length = k + 1 := ⟨fuel - blocks.length - 1, by omega⟩
  rw [hk, lookGo]
  have hread : readBytes (pre ++ (idatStream blocks ++ (f4 ++ (bad ++ post))))
      (pre.length + (idatStream blocks).length + 4) 4 = some bad := by
    apply readBytes_of_eq (a := pre ++ idatStream blocks ++ f4) (b := bad)
      (c := post)
    · simp [List.append_assoc]
    · simp [List.length_append]; omega
    · omega
  simp only [hread]
  simp [hbad1, hbad2]

/-- Extraction on a well-formed single-still-image buffer returns exactly
its IDAT data blocks, in stream order. -/
theorem lookForIDAT_ok (blocks : List (List Nat)) (header f4 post : List Nat)
    (hh : header.length = 33) (hf : f4.length = 4)
    (hb : ∀ d ∈ blocks, d.length < 4294967296) :
    lookForIDAT (header ++ (idatStream blocks ++ (f4 ++ (iendTag ++ post))))
      = .ok blocks := by
  unfold lookForIDAT
  have h37 : (37 : Nat) = header.length + 4 := by omega
  rw [h37]
  have := lookGo_ok blocks header f4 post []
    ((header ++ (idatStream blocks ++ (f4 ++ (iendTag ++ post)))).length + 1)
    hb hf ?hfuel
  · simpa using this
  case hfuel =>
    have hge := idatStream_length_ge blocks
    simp [List.length_append]
    omega

/-- Extraction on a buffer whose chunk stream reaches a tag other than
"IDAT" and "IEND" throws exactly that tag. -/
theorem lookForIDAT_bad (blocks : List (List Nat)) (header f4 bad post : List Nat)
    (hh : header.length = 33) (hf : f4.length = 4) (hbad4 : bad.length = 4)
    (hbad1 : bad ≠ idatTag) (hbad2 : bad ≠ iendTag)
    (hb : ∀ d ∈ blocks, d.length < 4294967296) :
    lookForIDAT (header ++ (idatStream blocks ++ (f4 ++ (bad ++ post))))
      = .error (.malformed bad) := by
  unfold lookForIDAT
  have h37 : (37 : Nat) = header.length + 4 := by omega
  rw [h37]
  have := lookGo_bad blocks header f4 bad post []
    ((header ++ (idatStream blocks ++ (f4 ++ (bad ++ post)))).length + 1)
    hb hf hbad4 hbad1 hbad2 ?hfuel
  · simpa using this
  case hfuel =>
    have hge := idatStream_length_ge blocks
    simp [List.length_append]
    omega

/-- A successful `mapM` over `Except` means every element mapped
successfully. -/
theorem except_mapM_ok {α β ε : Type} (f : α → Except ε β) :
    ∀ (l : List α) (res : List β), l.mapM f = Except.ok res →
      ∀ a ∈ l, ∃ b, f a = Except.ok b := by
  intro l
  induction l with
  | nil => intro res _ a ha; cases ha
  | cons x xs ih =>
    intro res hres a ha
    rw [List.mapM_cons] at hres
    cases hfx : f x with
    | error e =>
      rw [hfx] at hres
      simp only [Bind.bind, Except.bind] at hres
      cases hres
    | ok b =>
      rw [hfx] at hres
      simp only [Bind.bind, Except.bind] at hres
      cases hxs : xs.mapM f with
      | error e => rw [hxs] at hres; cases hres
      | ok bs =>
        rcases List.mem_cons.mp ha with rfl | hmem
        · exact ⟨b, hfx⟩
        · exact ih bs hxs a hmem

/-- C3: the table-driven `crc32` of src/apng.js implements CRC-32/ISO-HDLC
(reflected polynomial 0xEDB88320, all-ones initial register, final
bit-inversion): it agrees with the bit-at-a-time reference algorithm on
every input, and in particular maps the ASCII bytes of "123456789" to
0xCBF43926 and the empty buffer to 0. -/
theorem crc32_implements_iso_hdlc :
    (∀ data : List Nat, crc32 data = crc32IsoHdlc data)
      ∧ crc32 [49, 50, 51, 52, 53, 54, 55, 56, 57] = 0xCBF43926
      ∧ crc32 [] = 0 :=
  ⟨crc32_eq_iso, by decide, by decide⟩

/-- C2: `buildChunk tag payload` decomposes back into length, tag,
payload and CRC: its first 4 bytes are the big-endian payload length, the
next 4 bytes the tag, the payload bytes follow unchanged, and the
trailing 4 bytes are the big-endian crc32 of tag concatenated with
payload; the total length is payload length plus 12. -/
theorem buildChunk_roundtrip (type data : List Nat)
    (htype : type.length = 4) (hbytes : IsBytes (type ++ data))
    (hlen : data.length < 4294967296) :
    (buildChunk type data).take 4 = be32 data.length
      ∧ be32dec ((buildChunk type data).take 4) = data.length
      ∧ ((buildChunk type data).drop 4).take 4 = type
      ∧ ((buildChunk type data).drop 8).take data.length = data
      ∧ (buildChunk type data).drop (8 + data.length)
          = be32 (crc32 (type ++ data))
      ∧ be32dec ((buildChunk type data).drop (8 + data.length))
          = crc32 (type ++ data)
      ∧ (buildChunk type data).length = data.length + 12 := by
  have h1 : (buildChunk type data).take 4 = be32 data.length := by
    unfold buildChunk
    rw [List.append_assoc, List.append_assoc]
    exact List.take_left' (be32_length data.length)
  have h2 : ((buildChunk type data).drop 4).take 4 = type := by
    unfold buildChunk
    rw [List.append_assoc, List.append_assoc,
      List.drop_left' (be32_length data.length)]
    exact List.take_left' htype
  have h3 : ((buildChunk type data).drop 8).take data.length = data := by
    unfold buildChunk
    rw [show be32 data.length ++ type ++ data ++ be32 (crc32 (type ++ data))
        = (be32 data.length ++ type) ++ (data ++ be32 (crc32 (type ++ data)))
      from by simp [List.append_assoc]]
    rw [List.drop_left' (by simp [be32_length, htype])]
    exact List.take_left' rfl
  have h4 : (buildChunk type data).drop (8 + data.length)
      = be32 (crc32 (type ++ data)) := by
    unfold buildChunk
    rw [show be32 data.length ++ type ++ data ++ be32 (crc32 (type ++ data))
        = (be32 data.length ++ type ++ data) ++ be32 (crc32 (type ++ data))
      from by simp [List.append_assoc]]
    apply List.drop_left'
    simp [be32_length, htype]
    omega
  refine ⟨h1, ?_, h2, h3, h4, ?_, ?_⟩
  · rw [h1]; exact be32_eq_of_lt hlen
  · rw [h4]; exact be32_eq_of_lt (crc32_lt (type ++ data) hbytes)
  · rw [buildChunk_length, htype]; omega

/-- Witness for C2 at the tag "IDAT" and the one-byte payload 7. -/
theorem buildChunk_roundtrip_witness :
    (idatTag.length = 4 ∧ IsBytes (idatTag ++ [7]) ∧ ([7] : List Nat).length < 4294967296)
      ∧ ((buildChunk idatTag [7]).take 4 = be32 1
          ∧ be32dec ((buildChunk idatTag [7]).take 4) = 1
          ∧ ((buildChunk idatTag [7]).drop 4).take 4 = idatTag
          ∧ ((buildChunk idatTag [7]).drop 8).take 1 = [7]
          ∧ (buildChunk idatTag [7]).drop 9 = be32 (crc32 (idatTag ++ [7]))
          ∧ be32dec ((buildChunk idatTag [7]).drop 9) = crc32 (idatTag ++ [7])
          ∧ (buildChunk idatTag [7]).length = 13) :=
  ⟨⟨by decide, by decide, by decide⟩,
    buildChunk_roundtrip idatTag [7] (by decide) (by decide) (by decide)⟩

theorem iEND_eq : iEND = buildChunk iendTag [] := by decide

theorem serializeChunks_cons (c : List Nat × List Nat)
    (cs : List (List Nat × List Nat)) :
    serializeChunks (c :: cs) = buildChunk c.1 c.2 ++ serializeChunks cs := rfl

theorem serializeChunks_append (a b : List (List Nat × List Nat)) :
    serializeChunks (a ++ b) = serializeChunks a ++ serializeChunks b := by
  induction a with
  | nil => rfl
  | cons c cs ih =>
    rw [List.cons_append, serializeChunks_cons, serializeChunks_cons, ih,
      List.append_assoc]

/-- The per-frame segments of `build` are, frame by frame, the serialized
chunk groups: their concatenation is the serialization of the full chunk
list, they advance the same counter, and there is exactly one segment per
frame. -/
theorem frameSegs_eq_chunks (w h fps : Nat) :
    ∀ (images : List (List (List Nat))) (seq : Nat) (isFirst : Bool),
    (frameSegs w h fps seq isFirst images).1.foldr (· ++ ·) []
        = serializeChunks (allFrameChunks w h fps seq isFirst images).1
      ∧ (frameSegs w h fps seq isFirst images).2
          = (allFrameChunks w h fps seq isFirst images).2
      ∧ (frameSegs w h fps seq isFirst images).1.length = images.length := by
  intro images
  induction images with
  | nil => intro seq isFirst; exact ⟨rfl, rfl, rfl⟩
  | cons d ds ih =>
    intro seq isFirst
    obtain ⟨h1, h2, h3⟩ := ih (frameChunks w h fps seq isFirst d).2 false
    refine ⟨?_, ?_, ?_⟩
    · simp only [frameSegs, allFrameChunks, List.foldr_cons]
      rw [h1, serializeChunks_append]
    · simp only [frameSegs, allFrameChunks]
      exact h2
    · simp only [frameSegs, allFrameChunks, List.length_cons]
      rw [h3]

/-- C6: extracting from a well-formed single-still-image buffer with
exactly one IDAT chunk yields exactly one block, byte-identical to that
chunk's data region; and on every well-formed input the blocks appear in
the result in source-stream order. -/
theorem lookForIDAT_extraction (header f4 post : List Nat)
    (blocks : List (List Nat)) (data : List Nat)
    (hh : header.length = 33) (hf : f4.length = 4)
    (hb : ∀ d ∈ blocks, d.length < 4294967296)
    (hd : data.length < 4294967296) :
    lookForIDAT (header ++ (idatStream [data] ++ (f4 ++ (iendTag ++ post))))
        = .ok [data]
      ∧ lookForIDAT (header ++ (idatStream blocks ++ (f4 ++ (iendTag ++ post))))
          = .ok blocks :=
  ⟨lookForIDAT_ok [data] header f4 post hh hf
      (fun d hdm => by rcases List.mem_singleton.mp hdm with rfl; exact hd),
    lookForIDAT_ok blocks header f4 post hh hf hb⟩

/-- Witness for C6: a buffer with one IDAT chunk holding the byte 7
extracts to exactly that block, and a two-chunk buffer preserves order. -/
theorem lookForIDAT_extraction_witness :
    lookForIDAT (List.replicate 33 0
        ++ (idatStream [[7]] ++ ([0, 0, 0, 0] ++ (iendTag ++ [])))) = .ok [[7]]
      ∧ lookForIDAT (List.replicate 33 0
          ++ (idatStream [[5], [6]] ++ ([0, 0, 0, 0] ++ (iendTag ++ []))))
          = .ok [[5], [6]] :=
  lookForIDAT_extraction (List.replicate 33 0) [0, 0, 0, 0] [] [[5], [6]] [7]
    (by decide) (by decide) (by decide) (by decide)

/-- C7: a frame buffer whose chunk stream reaches a tag that is neither
"IDAT" nor "IEND" makes extraction fail with the malformed-chunk error,
and a build containing any frame whose extraction fails produces no
output Blob. -/
theorem malformed_tag_aborts_build (header f4 bad post : List Nat)
    (blocks : List (List Nat))
    (hh : header.length = 33) (hf : f4.length = 4) (hbad4 : bad.length = 4)
    (hbad1 : bad ≠ idatTag) (hbad2 : bad ≠ iendTag)
    (hb : ∀ d ∈ blocks, d.length < 4294967296)
    (imgs : List Canvas) (c : Canvas) (fps np : Option Nat)
    (hc : c ∈ imgs)
    (hcpng : c.png = header ++ (idatStream blocks ++ (f4 ++ (bad ++ post)))) :
    lookForIDAT c.png = .error (JsError.malformed bad)
      ∧ ∀ blob : Blob, APNGmaker imgs fps np ≠ .ok blob := by
  have hx : lookForIDAT c.png = .error (JsError.malformed bad) := by
    rw [hcpng]
    exact lookForIDAT_bad blocks header f4 bad post hh hf hbad4 hbad1 hbad2 hb
  refine ⟨hx, ?_⟩
  intro blob hok
  cases imgs with
  | nil => cases hc
  | cons img rest =>
    rw [APNGmaker_cons] at hok
    cases hm : (img :: rest).mapM (fun cv => lookForIDAT cv.png) with
    | error e =>
      rw [hm] at hok
      simp at hok
    | ok payloads =>
      obtain ⟨p, hp⟩ := except_mapM_ok (fun cv => lookForIDAT cv.png)
        (img :: rest) payloads hm c hc
      rw [hx] at hp
      cases hp

/-- Witness for C7: inserting the tag "XXXX" before the end marker makes
extraction throw it, and the one-frame build over that buffer yields no
Blob. -/
theorem malformed_tag_aborts_build_witness :
    lookForIDAT (List.replicate 33 0
        ++ (idatStream [] ++ ([0, 0, 0, 0] ++ ([88, 88, 88, 88] ++ []))))
        = .error (JsError.malformed [88, 88, 88, 88])
      ∧ APNGmaker [⟨1, 1, List.replicate 33 0
          ++ (idatStream [] ++ ([0, 0, 0, 0] ++ ([88, 88, 88, 88] ++ [])))⟩]
          none none ≠ .ok ⟨[], "image/png"⟩ := by
  have h := malformed_tag_aborts_build (List.replicate 33 0) [0, 0, 0, 0]
    [88, 88, 88, 88] [] []
    (by decide) (by decide) (by decide) (by decide) (by decide) (by decide)
    [⟨1, 1, List.replicate 33 0
      ++ (idatStream [] ++ ([0, 0, 0, 0] ++ ([88, 88, 88, 88] ++ [])))⟩]
    ⟨1, 1, List.replicate 33 0
      ++ (idatStream [] ++ ([0, 0, 0, 0] ++ ([88, 88, 88, 88] ++ [])))⟩
    none none (by decide) rfl
  exact ⟨h.1, h.2 ⟨[], "image/png"⟩⟩

theorem seqNums_append (a b : List (List Nat × List Nat)) :
    seqNums (a ++ b) = seqNums a ++ seqNums b := by
  unfold seqNums
  exact List.filterMap_append a b _

theorem seqNums_cons_fctl (p : List Nat) (cs : List (List Nat × List Nat)) :
    seqNums ((fctlTag, p) :: cs) = be32dec (p.take 4) :: seqNums cs := by
  unfold seqNums
  rw [List.filterMap_cons]
  simp

theorem seqNums_cons_fdat (p : List Nat) (cs : List (List Nat × List Nat)) :
    seqNums ((fdatTag, p) :: cs) = be32dec (p.take 4) :: seqNums cs := by
  unfold seqNums
  rw [List.filterMap_cons]
  simp [fdatTag, fctlTag]

theorem seqNums_map_idat (data : List (List Nat)) :
    seqNums (data.map (fun d => (idatTag, d))) = [] := by
  induction data with
  | nil => rfl
  | cons d ds ih =>
    unfold seqNums at ih ⊢
    rw [List.map_cons, List.filterMap_cons]
    simpa [idatTag, fctlTag, fdatTag] using ih

theorem fctlPayload_take4 (seq w h fps : Nat) :
    (fctlPayload seq w h fps).take 4 = be32 seq := by
  unfold fctlPayload
  simp only [List.append_assoc]
  exact List.take_left' (be32_length seq)

theorem countTag_append (a b : List (List Nat × List Nat)) (tag : List Nat) :
    countTag (a ++ b) tag = countTag a tag + countTag b tag := by
  unfold countTag
  rw [List.filter_append, List.length_append]

theorem countTag_nil (tag : List Nat) : countTag [] tag = 0 := rfl

theorem countTag_cons (c : List Nat × List Nat) (cs : List (List Nat × List Nat))
    (tag : List Nat) :
    countTag (c :: cs) tag = (if c.1 == tag then 1 else 0) + countTag cs tag := by
  unfold countTag
  rw [List.filter_cons]
  cases h : c.1 == tag with
  | true => simp [h, Nat.add_comm]
  | false => simp [h]

theorem seqCount_nil (b : Bool) : seqCount b [] = 0 := rfl

theorem seqCount_cons_true (d : List (List Nat)) (ds : List (List (List Nat))) :
    seqCount true (d :: ds) = 1 + seqCount false ds := by
  simp [seqCount]

theorem seqCount_cons_false (d : List (List Nat)) (ds : List (List (List Nat))) :
    seqCount false (d :: ds) = 1 + d.length + seqCount false ds := by
  simp [seqCount]

/-- Properties of the fdAT chunks of one non-first frame: the counter
advances once per block, the carried sequence numbers are consecutive
from the start value, every chunk is tagged "fdAT", and none is an fcTL
or IDAT chunk. -/
theorem fdChunks_spec (ds : List (List Nat)) : ∀ s : Nat,
    (fdChunks s ds).2 = s + ds.length
      ∧ (s + ds.length ≤ 4294967296 →
          seqNums (fdChunks s ds).1 = List.range' s ds.length)
      ∧ countTag (fdChunks s ds).1 fctlTag = 0
      ∧ countTag (fdChunks s ds).1 fdatTag = ds.length
      ∧ (fdChunks s ds).1.filter (fun c => c.1 == idatTag) = [] := by
  induction ds with
  | nil =>
    intro s
    exact ⟨rfl, fun _ => rfl, rfl, rfl, rfl⟩
  | cons d ds ih =>
    intro s
    obtain ⟨h2, hseq, hc1, hc2, hc3⟩ := ih (s + 1)
    refine ⟨?_, ?_, ?_, ?_, ?_⟩
    · simp only [fdChunks, h2, List.length_cons]
      omega
    · intro hbound
      simp only [List.length_cons] at hbound
      simp only [fdChunks, seqNums_cons_fdat, List.length_cons]
      rw [List.take_left' (be32_length s), be32_eq_of_lt (by omega),
        hseq (by omega), List.range'_succ]
    · simp only [fdChunks]
      rw [countTag_cons,
        show ((fdatTag, be32 s ++ d).1 == fctlTag) = false from rfl, hc1]
      simp
    · simp only [fdChunks, List.length_cons]
      rw [countTag_cons, hc2]
      simp [Nat.add_comm]
    · simp only [fdChunks]
      rw [List.filter_cons,
        show ((fdatTag, be32 s ++ d).1 == idatTag) = false from rfl]
      simpa using hc3

theorem countTag_map_idat (data : List (List Nat)) :
    countTag (data.map (fun d => (idatTag, d))) fctlTag = 0
      ∧ countTag (data.map (fun d => (idatTag, d))) fdatTag = 0
      ∧ (data.map (fun d => (idatTag, d))).filter (fun c => c.1 == idatTag)
          = data.map (fun d => (idatTag, d)) := by
  induction data with
  | nil => exact ⟨rfl, rfl, rfl⟩
  | cons d ds ih =>
    obtain ⟨h1, h2, h3⟩ := ih
    refine ⟨?_, ?_, ?_⟩
    · rw [List.map_cons, countTag_cons,
        show ((idatTag, d).1 == fctlTag) = false from rfl, h1]
      simp
    · rw [List.map_cons, countTag_cons,
        show ((idatTag, d).1 == fdatTag) = false from rfl, h2]
      simp
    · rw [List.map_cons, List.filter_cons,
        show ((idatTag, d).1 == idatTag) = true from rfl]
      simpa using h3

/-- The running-counter invariant of the whole frame loop: the counter
advances by `seqCount`, the emitted fcTL and fdAT sequence numbers are
consecutive from the start value, there is one fcTL chunk per frame,
fcTL and fdAT chunks together account exactly for the counter values
consumed, and the IDAT chunks are exactly the first frame's blocks,
unmodified. -/
theorem allFrameChunks_spec (w h fps : Nat) :
    ∀ (images : List (List (List Nat))) (seq : Nat) (isFirst : Bool),
    (allFrameChunks w h fps seq isFirst images).2 = seq + seqCount isFirst images
      ∧ (seq + seqCount isFirst images ≤ 4294967296 →
          seqNums (allFrameChunks w h fps seq isFirst images).1
            = List.range' seq (seqCount isFirst images))
      ∧ countTag (allFrameChunks w h fps seq isFirst images).1 fctlTag
          = images.length
      ∧ countTag (allFrameChunks w h fps seq isFirst images).1 fctlTag
            + countTag (allFrameChunks w h fps seq isFirst images).1 fdatTag
          = seqCount isFirst images
      ∧ ((allFrameChunks w h fps seq isFirst images).1.filter
            (fun c => c.1 == idatTag)).map (fun c => c.2)
          = (if isFirst then images.headD [] else []) := by
  intro images
  induction images with
  | nil =>
    intro seq isFirst
    refine ⟨by simp [allFrameChunks, seqCount], fun _ => rfl, rfl, rfl,
      by cases isFirst <;> rfl⟩
  | cons d ds ih =>
    intro seq isFirst
    cases isFirst with
    | true =>
      have hfc : frameChunks w h fps seq true d
          = ((fctlTag, fctlPayload seq w h fps) :: d.map (fun x => (idatTag, x)),
            seq + 1) := by
        unfold frameChunks
        rw [if_pos rfl]
      obtain ⟨h2, hseq, hc1, hc2, hc3⟩ := ih (seq + 1) false
      obtain ⟨hm1, hm2, hm3⟩ := countTag_map_idat d
      refine ⟨?_, ?_, ?_, ?_, ?_⟩
      · simp only [allFrameChunks, hfc, h2, seqCount_cons_true]
        omega
      · intro hbound
        rw [seqCount_cons_true] at hbound
        simp only [allFrameChunks, hfc, List.cons_append, seqNums_cons_fctl,
          seqNums_append, seqNums_map_idat, List.nil_append]
        rw [fctlPayload_take4, be32_eq_of_lt (by omega), hseq (by omega),
          seqCount_cons_true, Nat.add_comm 1 (seqCount false ds),
          List.range'_succ]
      · simp only [allFrameChunks, hfc, List.cons_append, List.length_cons]
        rw [countTag_cons, countTag_append]
        have : countTag (d.map (fun x => (idatTag, x))) fctlTag = 0 := hm1
        simp only [show ((fctlTag, fctlPayload seq w h fps).1 == fctlTag) = true
          from rfl]
        rw [this, hc1]
        simp [Nat.add_comm]
      · simp only [allFrameChunks, hfc, List.cons_append, seqCount_cons_true]
        rw [countTag_cons, countTag_cons, countTag_append, countTag_append]
        rw [hm1, hm2, hc1]
        have := hc2
        simp only [show ((fctlTag, fctlPayload seq w h fps).1 == fctlTag) = true
          from rfl, show ((fctlTag, fctlPayload seq w h fps).1 == fdatTag) = false
          from rfl] at this ⊢
        simp at this ⊢
        omega
      · simp only [allFrameChunks, hfc, List.cons_append]
        rw [List.filter_cons]
        simp only [show ((fctlTag, fctlPayload seq w h fps).1 == idatTag) = false
          from rfl]
        simp only [Bool.false_eq_true, if_neg (by simp : ¬False)]
        rw [List.filter_append, List.map_append, hm3, hc3]
        simp [List.headD]
    | false =>
      have hfc : frameChunks w h fps seq false d
          = ((fctlTag, fctlPayload seq w h fps) :: (fdChunks (seq + 1) d).1,
            (fdChunks (seq + 1) d).2) := by
        unfold frameChunks
        rw [if_neg (by simp)]
      obtain ⟨hf2, hfseq, hfc1, hfc2, hfc3⟩ := fdChunks_spec d (seq + 1)
      obtain ⟨h2, hseq, hc1, hc2, hc3⟩ := ih (fdChunks (seq + 1) d).2 false
      refine ⟨?_, ?_, ?_, ?_, ?_⟩
      · simp only [allFrameChunks, hfc]
        rw [h2, hf2, seqCount_cons_false]
        omega
      · intro hbound
        rw [seqCount_cons_false] at hbound
        simp only [allFrameChunks, hfc, List.cons_append, seqNums_cons_fctl,
          seqNums_append]
        rw [fctlPayload_take4, be32_eq_of_lt (by omega), hfseq (by omega),
          hseq (by rw [hf2]; omega), hf2,
          List.range'_append_1 (seq + 1) d.length (seqCount false ds)]
        rw [seqCount_cons_false,
          show (1 : Nat) + d.length + seqCount false ds
            = (seqCount false ds + d.length) + 1 from by omega,
          List.range'_succ]
      · simp only [allFrameChunks, hfc, List.cons_append, List.length_cons]
        rw [countTag_cons, countTag_append]
        simp only [show ((fctlTag, fctlPayload seq w h fps).1 == fctlTag) = true
          from rfl]
        rw [hfc1, hc1]
        simp [Nat.add_comm]
      · simp only [allFrameChunks, hfc, List.cons_append, seqCount_cons_false]
        rw [countTag_cons, countTag_cons, countTag_append, countTag_append]
        rw [hfc1, hfc2, hc1]
        have := hc2
        simp only [show ((fctlTag, fctlPayload seq w h fps).1 == fctlTag) = true
          from rfl, show ((fctlTag, fctlPayload seq w h fps).1 == fdatTag) = false
          from rfl] at this ⊢
        simp at this ⊢
        omega
      · simp only [allFrameChunks, hfc, List.cons_append]
        rw [List.filter_cons]
        simp only [show ((fctlTag, fctlPayload seq w h fps).1 == idatTag) = false
          from rfl]
        simp only [Bool.false_eq_true, if_neg (by simp : ¬False)]
        rw [List.filter_append, List.map_append, hfc3, hc3]
        simp

/-- C1: every successful build's byte stream is exactly the 8-byte PNG
signature, then one IHDR chunk with the 13-byte payload width, height,
8, 6, 0, 0, 0, then one acTL chunk immediately after it, then the frame
segments in frame order (one segment per frame), then one terminal IEND
chunk with zero-length payload. -/
theorem build_structure (images : List Canvas) (fps np : Option Nat) (blob : Blob)
    (img : Canvas) (rest : List Canvas) (payloads : List (List (List Nat)))
    (himg : images = img :: rest)
    (hpay : (img :: rest).mapM (fun c => lookForIDAT c.png) = .ok payloads)
    (hok : APNGmaker images fps np = .ok blob) :
    blob.bytes
      = [0x89, 0x50, 0x4E, 0x47, 0x0D, 0x0A, 0x1A, 0x0A]
        ++ buildChunk ihdrTag (be32 img.width ++ be32 img.height ++ [8, 6, 0, 0, 0])
        ++ buildChunk actlTag (be32 payloads.length ++ be32 (npVal np))
        ++ (frameSegs img.width img.height (fpsVal fps) 0 true payloads).1.foldr
            (· ++ ·) []
        ++ buildChunk iendTag []
      ∧ (frameSegs img.width img.height (fpsVal fps) 0 true payloads).1.length
          = payloads.length
      ∧ (be32 img.width ++ be32 img.height ++ [8, 6, 0, 0, 0]).length = 13 := by
  subst himg
  rw [APNGmaker_cons, hpay] at hok
  have hok2 : (Except.ok (⟨build payloads img.width img.height (fpsVal fps)
      (npVal np), "image/apng"⟩ : Blob) : Except JsError Blob) = .ok blob := hok
  injection hok2 with hblob
  subst hblob
  refine ⟨?_, (frameSegs_eq_chunks img.width img.height (fpsVal fps) payloads 0 true).2.2,
    by simp [be32_length]⟩
  show build payloads img.width img.height (fpsVal fps) (npVal np) = _
  unfold build pngSignature ihdrPayload actlPayload
  rw [iEND_eq]

/-- Witness for C1 at a one-frame build over a concrete one-IDAT buffer. -/
theorem build_structure_witness :
    ((([⟨1, 1, pngOneIdat⟩] : List Canvas).mapM (fun c => lookForIDAT c.png)
        = .ok [[[7]]])
      ∧ APNGmaker [⟨1, 1, pngOneIdat⟩] (some 30) (some 0)
          = .ok ⟨build [[[7]]] 1 1 30 0, "image/apng"⟩)
      ∧ ((⟨build [[[7]]] 1 1 30 0, "image/apng"⟩ : Blob).bytes
          = [0x89, 0x50, 0x4E, 0x47, 0x0D, 0x0A, 0x1A, 0x0A]
            ++ buildChunk ihdrTag (be32 1 ++ be32 1 ++ [8, 6, 0, 0, 0])
            ++ buildChunk actlTag (be32 1 ++ be32 0)
            ++ (frameSegs 1 1 30 0 true [[[7]]]).1.foldr (· ++ ·) []
            ++ buildChunk iendTag []
          ∧ (frameSegs 1 1 30 0 true [[[7]]]).1.length = 1
          ∧ (be32 1 ++ be32 1 ++ [8, 6, 0, 0, 0]).length = 13) :=
  ⟨⟨by decide, by decide⟩,
    build_structure [⟨1, 1, pngOneIdat⟩] (some 30) (some 0)
      ⟨build [[[7]]] 1 1 30 0, "image/apng"⟩ ⟨1, 1, pngOneIdat⟩ [] [[[7]]]
      rfl (by decide) (by decide)⟩

/-- C4: in every assembled chunk stream the sequence numbers written into
fcTL and fdAT chunks, taken in emission order, are exactly 0, 1, 2, ...
with no gaps; their count is the number of fcTL chunks plus the number of
fdAT chunks; there is one fcTL chunk per frame; and the first-frame IDAT
chunks carry no sequence number: their payloads are the first frame's
blocks unchanged. -/
theorem sequence_numbers (w h fps : Nat) (payloads : List (List (List Nat)))
    (hbound : seqCount true payloads ≤ 4294967296) :
    seqNums (allFrameChunks w h fps 0 true payloads).1
        = List.range (seqCount true payloads)
      ∧ (seqNums (allFrameChunks w h fps 0 true payloads).1).length
          = countTag (allFrameChunks w h fps 0 true payloads).1 fctlTag
            + countTag (allFrameChunks w h fps 0 true payloads).1 fdatTag
      ∧ countTag (allFrameChunks w h fps 0 true payloads).1 fctlTag
          = payloads.length
      ∧ ((allFrameChunks w h fps 0 true payloads).1.filter
            (fun c => c.1 == idatTag)).map (fun c => c.2)
          = payloads.headD [] := by
  obtain ⟨h2, hseq, hc1, hc2, hc3⟩ := allFrameChunks_spec w h fps payloads 0 true
  have hs := hseq (by omega)
  refine ⟨?_, ?_, hc1, ?_⟩
  · rw [hs, List.range_eq_range']
  · rw [hs, List.length_range']
    exact hc2.symm
  · simpa using hc3

/-- Witness for C4 at a two-frame build: one block in frame 0 and two in
frame 1 yield the sequence numbers 0, 1, 2, 3. -/
theorem sequence_numbers_witness :
    seqCount true [[[7]], [[8], [9]]] ≤ 4294967296
      ∧ (seqNums (allFrameChunks 1 1 30 0 true [[[7]], [[8], [9]]]).1
            = List.range (seqCount true [[[7]], [[8], [9]]])
          ∧ (seqNums (allFrameChunks 1 1 30 0 true [[[7]], [[8], [9]]]).1).length
              = countTag (allFrameChunks 1 1 30 0 true [[[7]], [[8], [9]]]).1 fctlTag
                + countTag (allFrameChunks 1 1 30 0 true [[[7]], [[8], [9]]]).1 fdatTag
          ∧ countTag (allFrameChunks 1 1 30 0 true [[[7]], [[8], [9]]]).1 fctlTag = 2
          ∧ ((allFrameChunks 1 1 30 0 true [[[7]], [[8], [9]]]).1.filter
                (fun c => c.1 == idatTag)).map (fun c => c.2) = [[7]]) :=
  ⟨by decide, sequence_numbers 1 1 30 [[[7]], [[8], [9]]] (by decide)⟩

/-- The fdAT chunks of a non-first frame, indexed: block `i` becomes an
fdAT chunk whose payload is the 4-byte big-endian value `s + i` followed
by the block. -/
theorem fdChunks_eq (ds : List (List Nat)) : ∀ s : Nat,
    (fdChunks s ds).1
      = ((List.range ds.length).zip ds).map
          (fun p => (fdatTag, be32 (s + p.1) ++ p.2)) := by
  induction ds with
  | nil => intro s; rfl
  | cons d ds ih =>
    intro s
    rw [show (fdChunks s (d :: ds)).1
        = (fdatTag, be32 s ++ d) :: (fdChunks (s + 1) ds).1 from rfl]
    rw [ih (s + 1), List.length_cons, List.range_succ_eq_map,
      List.zip_cons_cons, List.map_cons]
    congr 1
    rw [List.zip_map_left, List.map_map]
    congr 1
    funext p
    cases p with
    | mk i x =>
      simp only [Function.comp, Prod.map, id]
      rw [show s + (i + 1) = s + 1 + i from by omega]

/-- C5: a 1-frame build emits exactly one fcTL chunk, one IDAT chunk per
data block (at least one when the frame is nonempty) and no fdAT chunk;
a 2-frame build emits frame 0's blocks as IDAT chunks with unmodified
payloads and each block `i` of frame 1 as an fdAT chunk whose payload is
the 4-byte big-endian running counter value `2 + i` followed by the
block. -/
theorem first_vs_rest_framing (w h fps : Nat) (d0 d1 : List (List Nat))
    (hne : d0 ≠ []) :
    countTag (allFrameChunks w h fps 0 true [d0]).1 fctlTag = 1
      ∧ countTag (allFrameChunks w h fps 0 true [d0]).1 idatTag = d0.length
      ∧ 1 ≤ countTag (allFrameChunks w h fps 0 true [d0]).1 idatTag
      ∧ countTag (allFrameChunks w h fps 0 true [d0]).1 fdatTag = 0
      ∧ (allFrameChunks w h fps 0 true [d0, d1]).1
          = (fctlTag, fctlPayload 0 w h fps) :: d0.map (fun x => (idatTag, x))
            ++ (fctlTag, fctlPayload 1 w h fps)
              :: ((List.range d1.length).zip d1).map
                  (fun p => (fdatTag, be32 (2 + p.1) ++ p.2)) := by
  obtain ⟨hm1, hm2, hm3⟩ := countTag_map_idat d0
  have h1 : (allFrameChunks w h fps 0 true [d0]).1
      = (fctlTag, fctlPayload 0 w h fps) :: d0.map (fun x => (idatTag, x)) := by
    simp [allFrameChunks, frameChunks]
  have hidat : countTag (d0.map fun x => (idatTag, x)) idatTag = d0.length := by
    unfold countTag
    rw [hm3, List.length_map]
  refine ⟨?_, ?_, ?_, ?_, ?_⟩
  · rw [h1, countTag_cons,
      show ((fctlTag, fctlPayload 0 w h fps).1 == fctlTag) = true from rfl, hm1]
    simp
  · rw [h1, countTag_cons,
      show ((fctlTag, fctlPayload 0 w h fps).1 == idatTag) = false from rfl, hidat]
    simp
  · rw [h1, countTag_cons,
      show ((fctlTag, fctlPayload 0 w h fps).1 == idatTag) = false from rfl, hidat]
    cases d0 with
    | nil => exact absurd rfl hne
    | cons x xs => simp
  · rw [h1, countTag_cons,
      show ((fctlTag, fctlPayload 0 w h fps).1 == fdatTag) = false from rfl, hm2]
    simp
  · have h2 : (allFrameChunks w h fps 0 true [d0, d1]).1
        = ((fctlTag, fctlPayload 0 w h fps) :: d0.map (fun x => (idatTag, x)))
          ++ (((fctlTag, fctlPayload 1 w h fps) :: (fdChunks 2 d1).1) ++ []) := by
      simp [allFrameChunks, frameChunks]
    rw [h2, fdChunks_eq d1 2]
    simp

/-- Witness for C5 at the one-block frame `[[7]]` and the two-block
frame `[[8], [9]]`. -/
theorem first_vs_rest_framing_witness :
    countTag (allFrameChunks 1 1 30 0 true [[[7]]]).1 fctlTag = 1
      ∧ countTag (allFrameChunks 1 1 30 0 true [[[7]]]).1 idatTag = 1
      ∧ 1 ≤ countTag (allFrameChunks 1 1 30 0 true [[[7]]]).1 idatTag
      ∧ countTag (allFrameChunks 1 1 30 0 true [[[7]]]).1 fdatTag = 0
      ∧ (allFrameChunks 1 1 30 0 true [[[7]], [[8], [9]]]).1
          = (fctlTag, fctlPayload 0 1 1 30)
              :: ([[7]] : List (List Nat)).map (fun x => (idatTag, x))
            ++ (fctlTag, fctlPayload 1 1 1 30)
              :: ((List.range 2).zip [[8], [9]]).map
                  (fun p => (fdatTag, be32 (2 + p.1) ++ p.2)) :=
  first_vs_rest_framing 1 1 30 [[7]] [[8], [9]] (by decide)

/-- C8 fails on the code as stated: the constructor's very first
statement reads `images[0].width`, which on an empty image array is a
property access on `undefined` and throws a TypeError, so a zero-frame
build does fail. -/
theorem zero_frames_constructor_fails :
    APNGmaker [] none none = .error JsError.typeError := rfl

/-- C8 amended: a build invoked with zero input frames fails with a
TypeError while reading the first image's width, producing no stream; the
assembly step `build` itself, given zero extracted payloads, does yield a
structurally valid stream whose acTL records zero frames and which
contains no frame segments. -/
theorem zero_frames_amended :
    (∀ fps np : Option Nat, APNGmaker [] fps np = .error JsError.typeError)
      ∧ ∀ w h fps np : Nat,
          build [] w h fps np
            = pngSignature ++ buildChunk ihdrTag (ihdrPayload w h)
              ++ buildChunk actlTag (actlPayload 0 np)
              ++ buildChunk iendTag [] := by
  constructor
  · intro fps np
    rfl
  · intro w h fps np
    unfold build
    rw [iEND_eq]
    simp [frameSegs, actlPayload]

/-- C9 fails on the code: the Blob is constructed with media type
"image/apng", not "image/png" as the claim (and the code's own JSDoc)
states; every successful build carries type "image/apng". -/
theorem mime_type_is_apng :
    (∀ (images : List Canvas) (fps np : Option Nat) (blob : Blob),
        APNGmaker images fps np = .ok blob → blob.mimeType = "image/apng")
      ∧ "image/apng" ≠ "image/png" := by
  constructor
  · intro images fps np blob hok
    cases images with
    | nil => simp [APNGmaker] at hok
    | cons img rest =>
      rw [APNGmaker_cons] at hok
      cases hm : (img :: rest).mapM (fun c => lookForIDAT c.png) with
      | error e =>
        rw [hm] at hok
        simp at hok
      | ok payloads =>
        rw [hm] at hok
        have hok2 : (Except.ok (⟨build payloads img.width img.height
            (fpsVal fps) (npVal np), "image/apng"⟩ : Blob)
            : Except JsError Blob) = .ok blob := hok
        injection hok2 with hblob
        rw [← hblob]
  · decide

/-- Witness for C9 at a concrete successful one-frame build. -/
theorem mime_type_is_apng_witness :
    APNGmaker [⟨1, 1, pngOneIdat⟩] (some 30) (some 0)
        = .ok ⟨build [[[7]]] 1 1 30 0, "image/apng"⟩
      ∧ (⟨build [[[7]]] 1 1 30 0, "image/apng"⟩ : Blob).mimeType
          = "image/apng" :=
  ⟨by decide,
    mime_type_is_apng.1 [⟨1, 1, pngOneIdat⟩] (some 30) (some 0)
      ⟨build [[[7]]] 1 1 30 0, "image/apng"⟩ (by decide)⟩

theorem fdChunks_all_fdat (ds : List (List Nat)) :
    ∀ (s : Nat) (c : List Nat × List Nat), c ∈ (fdChunks s ds).1 →
      c.1 = fdatTag := by
  induction ds with
  | nil => intro s c hc; cases hc
  | cons d ds ih =>
    intro s c hc
    rw [show (fdChunks s (d :: ds)).1
        = (fdatTag, be32 s ++ d) :: (fdChunks (s + 1) ds).1 from rfl] at hc
    rcases List.mem_cons.mp hc with rfl | hmem
    · rfl
    · exact ih (s + 1) c hmem

/-- Every fcTL-tagged chunk emitted by the frame loop carries a 26-byte
payload of the shape `fctlPayload s w h fps` for some counter value. -/
theorem fctl_payload_shape (w h fps : Nat) :
    ∀ (images : List (List (List Nat))) (seq : Nat) (isFirst : Bool)
      (c : List Nat × List Nat),
      c ∈ (allFrameChunks w h fps seq isFirst images).1 → c.1 = fctlTag →
      ∃ s, c.2 = fctlPayload s w h fps := by
  intro images
  induction images with
  | nil => intro seq isFirst c hc; cases hc
  | cons d ds ih =>
    intro seq isFirst c hc hct
    rw [show (allFrameChunks w h fps seq isFirst (d :: ds)).1
        = (frameChunks w h fps seq isFirst d).1
          ++ (allFrameChunks w h fps (frameChunks w h fps seq isFirst d).2
              false ds).1 from rfl] at hc
    rcases List.mem_append.mp hc with hmem | hmem
    · cases isFirst with
      | true =>
        rw [show (frameChunks w h fps seq true d).1
            = (fctlTag, fctlPayload seq w h fps)
              :: d.map (fun x => (idatTag, x)) from by
          unfold frameChunks; rw [if_pos rfl]] at hmem
        rcases List.mem_cons.mp hmem with rfl | hmem2
        · exact ⟨seq, rfl⟩
        · obtain ⟨x, _, rfl⟩ := List.mem_map.mp hmem2
          simp [idatTag, fctlTag] at hct
      | false =>
        rw [show (frameChunks w h fps seq false d).1
            = (fctlTag, fctlPayload seq w h fps)
              :: (fdChunks (seq + 1) d).1 from by
          unfold frameChunks; rw [if_neg (by simp)]] at hmem
        rcases List.mem_cons.mp hmem with rfl | hmem2
        · exact ⟨seq, rfl⟩
        · have := fdChunks_all_fdat d (seq + 1) c hmem2
          rw [hct] at this
          exact absurd this (by decide)
    · exact ih _ false c hmem hct

theorem delayNumOf_fctl (s w h f : Nat) :
    delayNumOf (fctlPayload s w h f) = 1 := by
  unfold delayNumOf fctlPayload
  rw [show be32 s ++ be32 w ++ be32 h ++ [0, 0, 0, 0] ++ [0, 0, 0, 0]
        ++ be16 1 ++ be16 f ++ [0, 0]
      = (be32 s ++ be32 w ++ be32 h ++ [0, 0, 0, 0] ++ [0, 0, 0, 0])
        ++ (be16 1 ++ (be16 f ++ [0, 0])) from by simp [List.append_assoc]]
  rw [List.drop_left' (by simp [List.length_append, be32_length])]
  rw [List.take_left' (be16_length 1)]
  decide

theorem delayDenOf_fctl (s w h f : Nat) :
    delayDenOf (fctlPayload s w h f) = f % 65536 := by
  unfold delayDenOf fctlPayload
  rw [show be32 s ++ be32 w ++ be32 h ++ [0, 0, 0, 0] ++ [0, 0, 0, 0]
        ++ be16 1 ++ be16 f ++ [0, 0]
      = (be32 s ++ be32 w ++ be32 h ++ [0, 0, 0, 0] ++ [0, 0, 0, 0] ++ be16 1)
        ++ (be16 f ++ [0, 0]) from by simp [List.append_assoc]]
  rw [List.drop_left' (by simp [List.length_append, be32_length, be16_length])]
  rw [List.take_left' (be16_length f)]
  exact be16dec_be16 f

/-- C10 fails on the code as stated: FPS = 65536 is truthy, yet the fcTL
delay-denominator field of the resulting build holds the bytes 00 00,
which decode to 0, not 65536 — `setUint16` stores FPS modulo 65536, so a
caller can produce a zero delay denominator. -/
theorem fps_truncation_counterexample :
    (APNGmaker [⟨1, 1, pngOneIdat⟩] (some 65536) none).toOption.map
        (fun b => (b.bytes.drop 83).take 2) = some [0, 0]
      ∧ be16dec [0, 0] = 0
      ∧ (65536 : Nat) ≠ 0 :=
  ⟨by decide, by decide, by decide⟩

/-- C10 amended: a falsy (omitted or zero) FPS argument becomes 30 and an
omitted numplays becomes 0; every fcTL chunk carries delay numerator 1
and delay denominator equal to the effective FPS reduced modulo 65536
(the low 16 bits stored by `setUint16`) — so a falsy FPS cannot yield a
zero denominator, but a truthy multiple of 65536 can. -/
theorem fps_defaults_amended (w h seq : Nat) (isFirst : Bool)
    (images : List (List (List Nat))) (fps : Option Nat) :
    (∀ c ∈ (allFrameChunks w h (fpsVal fps) seq isFirst images).1,
        c.1 = fctlTag →
          delayNumOf c.2 = 1 ∧ delayDenOf c.2 = fpsVal fps % 65536)
      ∧ ((fps = none ∨ fps = some 0) → fpsVal fps = 30)
      ∧ npVal none = 0
      ∧ (∀ n : Nat, n ≠ 0 → fpsVal (some n) = n) := by
  refine ⟨?_, ?_, rfl, ?_⟩
  · intro c hc hct
    obtain ⟨s, hs⟩ :=
      fctl_payload_shape w h (fpsVal fps) images seq isFirst c hc hct
    rw [hs, delayNumOf_fctl, delayDenOf_fctl]
    exact ⟨rfl, rfl⟩
  · rintro (rfl | rfl) <;> rfl
  · intro n hn
    cases n with
    | zero => exact absurd rfl hn
    | succ k => rfl

/-- Witness for C10 amended: with FPS 60 the single fcTL chunk carries
delay numerator 1 and delay denominator 60. -/
theorem fps_defaults_amended_witness :
    delayNumOf (fctlPayload 0 1 1 60) = 1
      ∧ delayDenOf (fctlPayload 0 1 1 60) = 60 := by
  have h := (fps_defaults_amended 1 1 0 true [[[7]]] (some 60)).1
    (fctlTag, fctlPayload 0 1 1 60) (by decide) rfl
  simpa using h

end APNG
